import Mathlib

/-!
Shallow embedding of the PhysicsCoin core (state engine, transaction
verification, delta sync, WAL recovery, Proof-of-Conservation consensus),
translated from the C sources under src/.  Balances (C `double`) are modelled
as exact rationals; SHA-256 is modelled as an injective constructor packing
exactly the bytes the C hashes; the secp256k1 / Ed25519 backends are opaque
parameters, since their internals are outside the repository.
-/

namespace PhysicsCoin

/-- Error codes, from include/physicscoin.h. -/
inductive PCError
  | PC_OK
  | PC_ERR_INSUFFICIENT_FUNDS
  | PC_ERR_INVALID_SIGNATURE
  | PC_ERR_WALLET_NOT_FOUND
  | PC_ERR_WALLET_EXISTS
  | PC_ERR_MAX_WALLETS
  | PC_ERR_INVALID_AMOUNT
  | PC_ERR_CONSERVATION_VIOLATED
  | PC_ERR_IO
  | PC_ERR_CRYPTO
  deriving DecidableEq, Repr

/-- PHYSICSCOIN_MAX_WALLETS from physicscoin.h. -/
def PHYSICSCOIN_MAX_WALLETS : Nat := 10000

/-- Tolerance 1e-9 used by aggregate conservation checks, as an exact rational. -/
def eps9 : ℚ := 1 / 1000000000

/-- Tolerance 1e-12 used by per-transfer delta checks, as an exact rational. -/
def eps12 : ℚ := 1 / 1000000000000

/-- C's fabs on the rational model of double. -/
def fabs (x : ℚ) : ℚ := if x < 0 then -x else x

/-- A wallet (PCWallet): 32-byte public key modelled as a Nat, balance
(`energy`, a C double) modelled as an exact rational, and the nonce. -/
structure PCWallet where
  public_key : Nat
  energy : ℚ
  nonce : Nat
  deriving DecidableEq, Repr

/-- Idealized SHA-256 state hash: `pc_state_compute_hash` hashes
version, timestamp, num_wallets, total_supply, prev_hash and each wallet's
(public_key, energy, nonce); we model the digest as an injective constructor
over exactly those fields.  `zero` is the all-zero hash set by init. -/
inductive PCHash
  | zero
  | node (version : Nat) (timestamp : Nat) (num_wallets : Nat)
      (total_supply : ℚ) (prev_hash : PCHash) (wallets : List PCWallet)
  deriving DecidableEq, Repr

/-- Universe state (PCState).  `num_wallets` is `wallets.length`; the C
array-plus-capacity pair is a list plus the capacity counter. -/
structure PCState where
  version : Nat
  timestamp : Nat
  total_supply : ℚ
  state_hash : PCHash
  prev_hash : PCHash
  wallets : List PCWallet
  wallets_capacity : Nat
  deriving DecidableEq, Repr

/-- Default wallet used as out-of-range fallback for list reads (the C code
only ever dereferences valid pointers; every index we read is in range). -/
def wallet0 : PCWallet := ⟨0, 0, 0⟩

/-- Read the wallet at index i (a C pointer into the wallets array). -/
def getW (ws : List PCWallet) (i : Nat) : PCWallet := ws.getD i wallet0

/-- Write through the pointer at index i. -/
def modifyW (ws : List PCWallet) (i : Nat) (f : PCWallet → PCWallet) :
    List PCWallet := ws.set i (f (getW ws i))

/-- Sum of all wallet balances. -/
def sumE (ws : List PCWallet) : ℚ := (ws.map PCWallet.energy).sum

/-- pc_state_get_wallet: linear scan for the first wallet whose key matches,
returned as an index into the array (the C function returns the pointer). -/
def findWalletIdx (ws : List PCWallet) (pk : Nat) : Option Nat :=
  match ws with
  | [] => none
  | w :: rest =>
      if w.public_key = pk then some 0
      else (findWalletIdx rest pk).map (· + 1)

/-- pc_state_init: empty state, version 1, capacity 100, zero hashes.
`now` stands for the C call `time(NULL)`. -/
def pc_state_init (now : Nat) : PCState :=
  { version := 1
    timestamp := now
    total_supply := 0
    state_hash := PCHash.zero
    prev_hash := PCHash.zero
    wallets := []
    wallets_capacity := 100 }

/-- The append performed by pc_state_create_wallet once capacity is ensured:
the new wallet gets nonce 0, and total_supply grows only for a positive
initial balance (the genesis-funding case). -/
def addWallet (s : PCState) (pk : Nat) (bal : ℚ) : PCState :=
  { s with
      wallets := s.wallets ++ [⟨pk, bal, 0⟩]
      total_supply := if bal > 0 then s.total_supply + bal else s.total_supply }

/-- pc_state_create_wallet from state.c. -/
def pc_state_create_wallet (s : PCState) (pk : Nat) (bal : ℚ) :
    PCError × PCState :=
  if (findWalletIdx s.wallets pk).isSome then (.PC_ERR_WALLET_EXISTS, s)
  else if s.wallets.length ≥ s.wallets_capacity then
    let new_cap := if s.wallets_capacity = 0 then 8 else s.wallets_capacity * 2
    if new_cap > PHYSICSCOIN_MAX_WALLETS then (.PC_ERR_MAX_WALLETS, s)
    else (.PC_OK, addWallet { s with wallets_capacity := new_cap } pk bal)
  else (.PC_OK, addWallet s pk bal)

/-- pc_state_compute_hash: repack the hashed fields into the ideal digest. -/
def pc_state_compute_hash (s : PCState) : PCState :=
  { s with
      state_hash :=
        PCHash.node s.version s.timestamp s.wallets.length s.total_supply
          s.prev_hash s.wallets }

/-- pc_state_genesis: fails on non-positive supply leaving the caller's state
untouched, otherwise re-initializes, creates the founder wallet holding the
whole supply, sets total_supply and computes the first hash. -/
def pc_state_genesis (now : Nat) (s : PCState) (founder : Nat) (supply : ℚ) :
    PCError × PCState :=
  if supply ≤ 0 then (.PC_ERR_INVALID_AMOUNT, s)
  else
    match pc_state_create_wallet (pc_state_init now) founder supply with
    | (.PC_OK, s2) =>
        (.PC_OK, pc_state_compute_hash { s2 with total_supply := supply })
    | (e, s2) => (e, s2)

/-- pc_state_verify_conservation: sums balances and compares with
total_supply within 1e-9. -/
def pc_state_verify_conservation (s : PCState) : PCError :=
  if fabs (sumE s.wallets - s.total_supply) > eps9 then
    .PC_ERR_CONSERVATION_VIOLATED
  else .PC_OK

/-- Transaction record (PCTransaction).  `sender` and `receiver` are the
`from` and `to` key fields; the 64-byte signature is a byte list. -/
structure PCTransaction where
  sender : Nat
  receiver : Nat
  amount : ℚ
  nonce : Nat
  timestamp : Nat
  signature : List Nat
  deriving DecidableEq, Repr

/-- The secp256k1 calls made by pc_transaction_verify, left opaque:
whether the compact signature parses, whether the sender's key is in the
key store, and whether ECDSA verification of the parsed signature against
the transaction's message hash succeeds. -/
structure CryptoBackend where
  parse_ok : List Nat → Bool
  key_in_store : Nat → Bool
  ecdsa_ok : List Nat → PCTransaction → Bool

/-- The all-zero scan at the top of pc_transaction_verify: the C loop runs
over all PHYSICSCOIN_SIG_SIZE = 64 signature bytes. -/
def pc_sig_all_zero (sig : List Nat) : Bool := sig.all (fun b => b = 0)

/-- pc_transaction_verify from crypto.c: reject an all-zero signature, then
parse, look up the sender's public key, and verify. -/
def pc_transaction_verify (B : CryptoBackend) (tx : PCTransaction) : PCError :=
  if pc_sig_all_zero tx.signature then .PC_ERR_INVALID_SIGNATURE
  else if ¬ B.parse_ok tx.signature then .PC_ERR_INVALID_SIGNATURE
  else if ¬ B.key_in_store tx.sender then .PC_ERR_INVALID_SIGNATURE
  else if ¬ B.ecdsa_ok tx.signature tx then .PC_ERR_INVALID_SIGNATURE
  else .PC_OK

/-- The atomic transfer from pc_state_execute_tx, with C pointer semantics:
debit index i, credit index j reading after the debit, then bump the nonce
at i.  With i = j the credit reads the already-debited cell. -/
def transferWallets (ws : List PCWallet) (i j : Nat) (a : ℚ) :
    List PCWallet :=
  let ws1 := modifyW ws i (fun w => { w with energy := w.energy - a })
  let ws2 := modifyW ws1 j (fun w => { w with energy := w.energy + a })
  modifyW ws2 i (fun w => { w with nonce := w.nonce + 1 })

/-- The rollback taken on a conservation failure inside pc_state_execute_tx:
re-credit i, re-debit j, undo the nonce bump. -/
def rollbackWallets (ws : List PCWallet) (i j : Nat) (a : ℚ) :
    List PCWallet :=
  let ws1 := modifyW ws i (fun w => { w with energy := w.energy + a })
  let ws2 := modifyW ws1 j (fun w => { w with energy := w.energy - a })
  modifyW ws2 i (fun w => { w with nonce := w.nonce - 1 })

/-- The tail of pc_state_execute_tx once sender index i and receiver index j
are resolved: nonce, funds and amount checks, the atomic transfer, the
paranoia re-check of the pair sum, and the hash-chain update. -/
def execCore (now : Nat) (s : PCState) (i j : Nat) (tx : PCTransaction) :
    PCError × PCState :=
  if tx.nonce ≠ (getW s.wallets i).nonce then (.PC_ERR_INVALID_SIGNATURE, s)
  else if (getW s.wallets i).energy < tx.amount then
    (.PC_ERR_INSUFFICIENT_FUNDS, s)
  else if tx.amount ≤ 0 then (.PC_ERR_INVALID_AMOUNT, s)
  else if fabs (((getW s.wallets i).energy + (getW s.wallets j).energy) -
      ((getW (transferWallets s.wallets i j tx.amount) i).energy +
       (getW (transferWallets s.wallets i j tx.amount) j).energy)) > eps12 then
    (.PC_ERR_CONSERVATION_VIOLATED,
      { s with
          wallets :=
            rollbackWallets (transferWallets s.wallets i j tx.amount) i j
              tx.amount })
  else
    (.PC_OK,
      pc_state_compute_hash
        { s with
            wallets := transferWallets s.wallets i j tx.amount
            timestamp := now
            prev_hash := s.state_hash })

/-- pc_state_execute_tx from state.c: verify the signature, resolve the
sender, auto-create the receiver when missing (this happens before the
nonce, funds and amount checks), then run the atomic transfer.  The final
inner `none` arm is unreachable (the receiver was just appended); the C code
would dereference a null pointer there. -/
def pc_state_execute_tx (B : CryptoBackend) (now : Nat) (s : PCState)
    (tx : PCTransaction) : PCError × PCState :=
  match pc_transaction_verify B tx with
  | .PC_OK =>
      match findWalletIdx s.wallets tx.sender with
      | none => (.PC_ERR_WALLET_NOT_FOUND, s)
      | some i =>
          match findWalletIdx s.wallets tx.receiver with
          | some j => execCore now s i j tx
          | none =>
              match pc_state_create_wallet s tx.receiver 0 with
              | (.PC_OK, s1) =>
                  match findWalletIdx s1.wallets tx.receiver with
                  | some j => execCore now s1 i j tx
                  | none => (.PC_ERR_WALLET_NOT_FOUND, s1)
              | (e, s1) => (e, s1)
  | e => (e, s)

/-- A finite sequence of pc_state_execute_tx calls, each with its own
crypto backend and wall-clock time. -/
def pc_exec_seq (s : PCState) :
    List (CryptoBackend × Nat × PCTransaction) → PCState
  | [] => s
  | (B, now, tx) :: rest => pc_exec_seq (pc_state_execute_tx B now s tx).2 rest

/-! ### Basic facts about wallet-array reads, writes and sums -/

theorem getW_nil (i : Nat) : getW [] i = wallet0 := rfl

theorem getW_cons_zero (x : PCWallet) (l : List PCWallet) :
    getW (x :: l) 0 = x := rfl

theorem getW_cons_succ (x : PCWallet) (l : List PCWallet) (n : Nat) :
    getW (x :: l) (n + 1) = getW l n := rfl

theorem getW_set_self (ws : List PCWallet) (i : Nat) (w : PCWallet)
    (h : i < ws.length) : getW (ws.set i w) i = w := by
  induction ws generalizing i with
  | nil => simp at h
  | cons x xs ih =>
      cases i with
      | zero => rfl
      | succ n =>
          show getW (xs.set n w) n = w
          exact ih n (by simpa using h)

theorem getW_set_ne (ws : List PCWallet) (i j : Nat) (w : PCWallet)
    (h : i ≠ j) : getW (ws.set i w) j = getW ws j := by
  induction ws generalizing i j with
  | nil => cases i <;> rfl
  | cons x xs ih =>
      cases i with
      | zero =>
          cases j with
          | zero => exact absurd rfl h
          | succ m => rfl
      | succ n =>
          cases j with
          | zero => rfl
          | succ m =>
              show getW (xs.set n w) m = getW xs m
              exact ih n m (by omega)

theorem sumE_nil : sumE [] = 0 := rfl

theorem sumE_cons (x : PCWallet) (l : List PCWallet) :
    sumE (x :: l) = x.energy + sumE l := by
  simp [sumE]

theorem sumE_append (l₁ l₂ : List PCWallet) :
    sumE (l₁ ++ l₂) = sumE l₁ + sumE l₂ := by
  simp [sumE]

theorem sumE_set (ws : List PCWallet) (i : Nat) (w : PCWallet)
    (h : i < ws.length) :
    sumE (ws.set i w) = sumE ws - (getW ws i).energy + w.energy := by
  induction ws generalizing i with
  | nil => simp at h
  | cons x xs ih =>
      cases i with
      | zero => simp [sumE_cons, getW_cons_zero]; ring
      | succ n =>
          have hn : n < xs.length := by simpa using h
          show sumE (x :: xs.set n w) = _
          rw [sumE_cons, sumE_cons, ih n hn, getW_cons_succ]
          ring

theorem length_modifyW (ws : List PCWallet) (i : Nat) (f : PCWallet → PCWallet) :
    (modifyW ws i f).length = ws.length := by
  simp [modifyW]

theorem sumE_modifyW (ws : List PCWallet) (i : Nat) (f : PCWallet → PCWallet)
    (h : i < ws.length) :
    sumE (modifyW ws i f) =
      sumE ws - (getW ws i).energy + (f (getW ws i)).energy := by
  simp [modifyW, sumE_set ws i _ h]

theorem getW_modifyW_self (ws : List PCWallet) (i : Nat)
    (f : PCWallet → PCWallet) (h : i < ws.length) :
    getW (modifyW ws i f) i = f (getW ws i) := by
  simp [modifyW, getW_set_self ws i _ h]

theorem getW_modifyW_ne (ws : List PCWallet) (i j : Nat)
    (f : PCWallet → PCWallet) (h : i ≠ j) :
    getW (modifyW ws i f) j = getW ws j := by
  simp [modifyW, getW_set_ne ws i j _ h]

theorem getW_append_lt (ws l : List PCWallet) (i : Nat) (h : i < ws.length) :
    getW (ws ++ l) i = getW ws i := by
  induction ws generalizing i with
  | nil => simp at h
  | cons x xs ih =>
      cases i with
      | zero => rfl
      | succ n =>
          show getW (xs ++ l) n = getW xs n
          exact ih n (by simpa using h)

/-! ### Facts about the wallet lookup -/

theorem findWalletIdx_lt (ws : List PCWallet) (pk : Nat) (i : Nat)
    (h : findWalletIdx ws pk = some i) : i < ws.length := by
  induction ws generalizing i with
  | nil => simp [findWalletIdx] at h
  | cons x xs ih =>
      simp only [findWalletIdx] at h
      by_cases hx : x.public_key = pk
      · rw [if_pos hx] at h
        have : i = 0 := by simpa using h.symm
        simp [this]
      · rw [if_neg hx] at h
        cases hfind : findWalletIdx xs pk with
        | none => rw [hfind] at h; simp at h
        | some n =>
            rw [hfind] at h
            have hi : n + 1 = i := by simpa using h
            have := ih n hfind
            simp [← hi]
            omega

theorem getW_findWalletIdx (ws : List PCWallet) (pk : Nat) (i : Nat)
    (h : findWalletIdx ws pk = some i) : (getW ws i).public_key = pk := by
  induction ws generalizing i with
  | nil => simp [findWalletIdx] at h
  | cons x xs ih =>
      simp only [findWalletIdx] at h
      by_cases hx : x.public_key = pk
      · rw [if_pos hx] at h
        have : i = 0 := by simpa using h.symm
        simp [this, getW_cons_zero, hx]
      · rw [if_neg hx] at h
        cases hfind : findWalletIdx xs pk with
        | none => rw [hfind] at h; simp at h
        | some n =>
            rw [hfind] at h
            have hi : n + 1 = i := by simpa using h
            rw [← hi, getW_cons_succ]
            exact ih n hfind

theorem findWalletIdx_append_none (ws : List PCWallet) (pk : Nat)
    (w : PCWallet) (h : findWalletIdx ws pk = none) :
    findWalletIdx (ws ++ [w]) pk =
      if w.public_key = pk then some ws.length else none := by
  induction ws with
  | nil => simp [findWalletIdx]
  | cons x xs ih =>
      simp only [findWalletIdx] at h
      by_cases hx : x.public_key = pk
      · rw [if_pos hx] at h; simp at h
      · rw [if_neg hx] at h
        have hnone : findWalletIdx xs pk = none := by
          cases hfind : findWalletIdx xs pk with
          | none => rfl
          | some n => rw [hfind] at h; simp at h
        rw [List.cons_append]
        have hstep : findWalletIdx (x :: (xs ++ [w])) pk =
            (findWalletIdx (xs ++ [w]) pk).map (· + 1) := by
          simp [findWalletIdx, hx]
        rw [hstep, ih hnone]
        by_cases hw : w.public_key = pk <;> simp [hw]

/-! ### The atomic transfer preserves the balance sum -/

@[simp] theorem compute_hash_wallets (s : PCState) :
    (pc_state_compute_hash s).wallets = s.wallets := rfl

@[simp] theorem compute_hash_total_supply (s : PCState) :
    (pc_state_compute_hash s).total_supply = s.total_supply := rfl

@[simp] theorem compute_hash_prev_hash (s : PCState) :
    (pc_state_compute_hash s).prev_hash = s.prev_hash := rfl

@[simp] theorem compute_hash_timestamp (s : PCState) :
    (pc_state_compute_hash s).timestamp = s.timestamp := rfl

@[simp] theorem compute_hash_version (s : PCState) :
    (pc_state_compute_hash s).version = s.version := rfl

theorem sumE_transferWallets (ws : List PCWallet) (i j : Nat) (a : ℚ)
    (hi : i < ws.length) (hj : j < ws.length) :
    sumE (transferWallets ws i j a) = sumE ws := by
  unfold transferWallets
  have hj1 : j < (modifyW ws i fun w => { w with energy := w.energy - a }).length := by
    rw [length_modifyW]; exact hj
  have hi2 : i < (modifyW (modifyW ws i fun w => { w with energy := w.energy - a }) j
      fun w => { w with energy := w.energy + a }).length := by
    rw [length_modifyW, length_modifyW]; exact hi
  rw [sumE_modifyW _ _ _ hi2, sumE_modifyW _ _ _ hj1, sumE_modifyW _ _ _ hi]
  ring

theorem transfer_pair_sum (ws : List PCWallet) (i j : Nat) (a : ℚ)
    (hi : i < ws.length) (hj : j < ws.length) :
    (getW (transferWallets ws i j a) i).energy +
      (getW (transferWallets ws i j a) j).energy =
    (getW ws i).energy + (getW ws j).energy := by
  have hj1 : j < (modifyW ws i fun w => { w with energy := w.energy - a }).length := by
    rw [length_modifyW]; exact hj
  have hi2 : i < (modifyW (modifyW ws i fun w => { w with energy := w.energy - a }) j
      fun w => { w with energy := w.energy + a }).length := by
    rw [length_modifyW, length_modifyW]; exact hi
  by_cases hij : i = j
  · subst hij
    unfold transferWallets
    rw [getW_modifyW_self _ _ _ hi2, getW_modifyW_self _ _ _ hj1,
      getW_modifyW_self _ _ _ hi]
    ring
  · unfold transferWallets
    rw [getW_modifyW_self _ _ _ hi2, getW_modifyW_ne _ j i _ (Ne.symm hij),
      getW_modifyW_self _ _ _ hi, getW_modifyW_ne _ i j _ hij,
      getW_modifyW_self _ _ _ hj1, getW_modifyW_ne _ i j _ hij]
    ring

/-- The paranoia re-check inside pc_state_execute_tx never fires: the pair
sum is exactly preserved, so its deviation is 0, not above 1e-12. -/
theorem transfer_check_dead (ws : List PCWallet) (i j : Nat) (a : ℚ)
    (hi : i < ws.length) (hj : j < ws.length) :
    ¬ (fabs (((getW ws i).energy + (getW ws j).energy) -
        ((getW (transferWallets ws i j a) i).energy +
         (getW (transferWallets ws i j a) j).energy)) > eps12) := by
  rw [transfer_pair_sum ws i j a hi hj, sub_self]
  norm_num [fabs, eps12]

theorem execCore_preserves (now : Nat) (s : PCState) (i j : Nat)
    (tx : PCTransaction) (hi : i < s.wallets.length)
    (hj : j < s.wallets.length) :
    sumE (execCore now s i j tx).2.wallets = sumE s.wallets ∧
    (execCore now s i j tx).2.total_supply = s.total_supply := by
  unfold execCore
  split_ifs with h1 h2 h3 h4
  · exact ⟨rfl, rfl⟩
  · exact ⟨rfl, rfl⟩
  · exact ⟨rfl, rfl⟩
  · exact absurd h4 (transfer_check_dead s.wallets i j tx.amount hi hj)
  · refine ⟨?_, rfl⟩
    simp [sumE_transferWallets s.wallets i j tx.amount hi hj]

theorem create_wallet_ok (s : PCState) (pk : Nat) (b : ℚ) (s1 : PCState)
    (h : pc_state_create_wallet s pk b = (.PC_OK, s1)) :
    s1.wallets = s.wallets ++ [⟨pk, b, 0⟩] ∧
    s1.total_supply = (if b > 0 then s.total_supply + b else s.total_supply) ∧
    s1.version = s.version ∧ s1.timestamp = s.timestamp ∧
    s1.state_hash = s.state_hash ∧ s1.prev_hash = s.prev_hash := by
  unfold pc_state_create_wallet at h
  simp only [] at h
  split_ifs at h with h1 h2 h3 h4 h5 <;>
    first
      | (injection h with hA hB; exact PCError.noConfusion hA)
      | (injection h with hA hB; subst hB; simp [addWallet])

theorem create_wallet_err (s : PCState) (pk : Nat) (b : ℚ) (e : PCError)
    (s1 : PCState) (h : pc_state_create_wallet s pk b = (e, s1))
    (he : e ≠ .PC_OK) : s1 = s := by
  unfold pc_state_create_wallet at h
  simp only [] at h
  split_ifs at h with h1 h2 h3 h4 h5 <;>
    first
      | (injection h with hA hB; exact hB.symm)
      | (injection h with hA hB; exact absurd hA.symm he)

theorem create_wallet_eq_err (s : PCState) (pk : Nat) (b : ℚ) (e : PCError)
    (hc1 : (pc_state_create_wallet s pk b).1 = e) (he : e ≠ .PC_OK) :
    pc_state_create_wallet s pk b = (e, s) := by
  have hpair : pc_state_create_wallet s pk b =
      ((pc_state_create_wallet s pk b).1, (pc_state_create_wallet s pk b).2) :=
    rfl
  have hs := create_wallet_err s pk b (pc_state_create_wallet s pk b).1
    (pc_state_create_wallet s pk b).2 hpair (by rw [hc1]; exact he)
  rw [hpair, hc1, hs]

theorem exec_tx_preserves (B : CryptoBackend) (now : Nat) (s : PCState)
    (tx : PCTransaction) :
    sumE (pc_state_execute_tx B now s tx).2.wallets = sumE s.wallets ∧
    (pc_state_execute_tx B now s tx).2.total_supply = s.total_supply := by
  unfold pc_state_execute_tx
  cases hv : pc_transaction_verify B tx <;> try exact ⟨rfl, rfl⟩
  cases hfs : findWalletIdx s.wallets tx.sender with
  | none => exact ⟨rfl, rfl⟩
  | some i =>
      have hi := findWalletIdx_lt s.wallets tx.sender i hfs
      cases hfr : findWalletIdx s.wallets tx.receiver with
      | some j =>
          exact execCore_preserves now s i j tx hi
            (findWalletIdx_lt s.wallets tx.receiver j hfr)
      | none =>
          cases hc1 : (pc_state_create_wallet s tx.receiver 0).1
          case PC_OK =>
              have hc : pc_state_create_wallet s tx.receiver 0 =
                  (.PC_OK, (pc_state_create_wallet s tx.receiver 0).2) := by
                rw [← hc1]
              rw [hc]
              obtain ⟨hws, hts, -, -, -, -⟩ :=
                create_wallet_ok s tx.receiver 0 _ hc
              have hfind1 :
                  findWalletIdx (pc_state_create_wallet s tx.receiver 0).2.wallets
                    tx.receiver = some s.wallets.length := by
                rw [hws, findWalletIdx_append_none s.wallets tx.receiver _ hfr]
                simp
              dsimp only
              rw [hfind1]
              have hlen : (pc_state_create_wallet s tx.receiver 0).2.wallets.length
                  = s.wallets.length + 1 := by
                rw [hws]; simp
              have hmain := execCore_preserves now
                (pc_state_create_wallet s tx.receiver 0).2 i s.wallets.length tx
                (by omega) (by omega)
              have hsum1 : sumE (pc_state_create_wallet s tx.receiver 0).2.wallets
                  = sumE s.wallets := by
                rw [hws, sumE_append]; simp [sumE]
              have hts1 : (pc_state_create_wallet s tx.receiver 0).2.total_supply
                  = s.total_supply := by
                rw [hts]; norm_num
              exact ⟨hmain.1.trans hsum1, hmain.2.trans hts1⟩
          all_goals rw [create_wallet_eq_err s tx.receiver 0 _ hc1 (by decide)]
          all_goals exact ⟨rfl, rfl⟩

theorem genesis_ok (now : Nat) (s : PCState) (founder : Nat) (S : ℚ)
    (h : 0 < S) :
    (pc_state_genesis now s founder S).1 = .PC_OK ∧
    (pc_state_genesis now s founder S).2.wallets = [⟨founder, S, 0⟩] ∧
    (pc_state_genesis now s founder S).2.total_supply = S := by
  unfold pc_state_genesis
  rw [if_neg (not_le.mpr h)]
  have hcw : pc_state_create_wallet (pc_state_init now) founder S =
      (.PC_OK, addWallet (pc_state_init now) founder S) := by
    unfold pc_state_create_wallet pc_state_init
    simp [findWalletIdx]
  rw [hcw]
  simp [addWallet, pc_state_init]

theorem exec_seq_preserves (txs : List (CryptoBackend × Nat × PCTransaction)) :
    ∀ s : PCState, sumE (pc_exec_seq s txs).wallets = sumE s.wallets ∧
      (pc_exec_seq s txs).total_supply = s.total_supply := by
  induction txs with
  | nil => intro s; exact ⟨rfl, rfl⟩
  | cons p rest ih =>
      intro s
      rcases p with ⟨B, now, tx⟩
      have h1 := exec_tx_preserves B now s tx
      have h2 := ih (pc_state_execute_tx B now s tx).2
      exact ⟨h2.1.trans h1.1, h2.2.trans h1.2⟩

/-- C1: for every initial supply S > 0 and every finite sequence of
pc_state_execute_tx calls applied after pc_state_genesis(founder, S), the
sum of wallet balances stays within 1e-9 of S (in the exact-arithmetic model
it equals S), and pc_state_verify_conservation returns PC_OK, regardless of
which transactions succeed or fail. -/
theorem c1_conservation (S : ℚ) (founder now : Nat) (s_pre : PCState)
    (txs : List (CryptoBackend × Nat × PCTransaction)) (hS : 0 < S) :
    |sumE (pc_exec_seq (pc_state_genesis now s_pre founder S).2 txs).wallets
        - S| < eps9 ∧
    pc_state_verify_conservation
      (pc_exec_seq (pc_state_genesis now s_pre founder S).2 txs) = .PC_OK := by
  obtain ⟨-, hw, hts⟩ := genesis_ok now s_pre founder S hS
  obtain ⟨h1, h2⟩ :=
    exec_seq_preserves txs (pc_state_genesis now s_pre founder S).2
  have hsum :
      sumE (pc_exec_seq (pc_state_genesis now s_pre founder S).2 txs).wallets
        = S := by
    rw [h1, hw]; simp [sumE]
  refine ⟨?_, ?_⟩
  · rw [hsum, sub_self, abs_zero]; norm_num [eps9]
  · unfold pc_state_verify_conservation
    rw [if_neg]
    rw [hsum, h2, hts, sub_self]
    norm_num [fabs, eps9]

/-- Witness for C1 at supply 100, founder key 0, no transactions. -/
theorem c1_conservation_witness :
    |sumE (pc_exec_seq (pc_state_genesis 0 (pc_state_init 0) 0 100).2 []).wallets
        - 100| < eps9 ∧
    pc_state_verify_conservation
      (pc_exec_seq (pc_state_genesis 0 (pc_state_init 0) 0 100).2 []) = .PC_OK :=
  c1_conservation 100 0 0 (pc_state_init 0) [] (by norm_num)

/-! ### Characterizing the error and success paths of pc_state_execute_tx -/

theorem execCore_err (now : Nat) (s : PCState) (i j : Nat)
    (tx : PCTransaction) (hi : i < s.wallets.length)
    (hj : j < s.wallets.length) (e : PCError) (s₂ : PCState)
    (hex : execCore now s i j tx = (e, s₂)) (he : e ≠ .PC_OK) : s₂ = s := by
  unfold execCore at hex
  split_ifs at hex with h1 h2 h3 h4
  · injection hex with hA hB; exact hB.symm
  · injection hex with hA hB; exact hB.symm
  · injection hex with hA hB; exact hB.symm
  · exact absurd h4 (transfer_check_dead s.wallets i j tx.amount hi hj)
  · injection hex with hA hB; exact absurd hA.symm he

theorem execCore_ok_shape (now : Nat) (s : PCState) (i j : Nat)
    (tx : PCTransaction) (s₂ : PCState)
    (hex : execCore now s i j tx = (.PC_OK, s₂)) :
    s₂ = pc_state_compute_hash
      { s with
          wallets := transferWallets s.wallets i j tx.amount
          timestamp := now
          prev_hash := s.state_hash } := by
  unfold execCore at hex
  split_ifs at hex with h1 h2 h3 h4
  · injection hex with hA hB; exact PCError.noConfusion hA
  · injection hex with hA hB; exact PCError.noConfusion hA
  · injection hex with hA hB; exact PCError.noConfusion hA
  · injection hex with hA hB; exact PCError.noConfusion hA
  · injection hex with hA hB; exact hB.symm

theorem execCore_success (now : Nat) (s : PCState) (i j : Nat)
    (tx : PCTransaction)
    (h1 : tx.nonce = (getW s.wallets i).nonce)
    (h2 : ¬ (getW s.wallets i).energy < tx.amount)
    (h3 : ¬ tx.amount ≤ 0)
    (hi : i < s.wallets.length) (hj : j < s.wallets.length) :
    execCore now s i j tx =
      (.PC_OK, pc_state_compute_hash
        { s with
            wallets := transferWallets s.wallets i j tx.amount
            timestamp := now
            prev_hash := s.state_hash }) := by
  unfold execCore
  rw [if_neg (by simp [h1]), if_neg h2, if_neg h3,
    if_neg (transfer_check_dead s.wallets i j tx.amount hi hj)]

/-- The state an error return of pc_state_execute_tx leaves behind: either
the input state, or the input state with the recipient wallet freshly
created by the auto-creation step that precedes the nonce, funds and amount
checks. -/
theorem exec_tx_err_state (B : CryptoBackend) (now : Nat) (s : PCState)
    (tx : PCTransaction) (e : PCError) (s₂ : PCState)
    (hex : pc_state_execute_tx B now s tx = (e, s₂)) (he : e ≠ .PC_OK) :
    s₂ = s ∨ pc_state_create_wallet s tx.receiver 0 = (.PC_OK, s₂) := by
  unfold pc_state_execute_tx at hex
  cases hv : pc_transaction_verify B tx
  case PC_OK =>
    rw [hv] at hex
    dsimp only at hex
    cases hfs : findWalletIdx s.wallets tx.sender
    case none =>
      rw [hfs] at hex
      injection hex with hA hB
      exact Or.inl hB.symm
    case some i =>
      rw [hfs] at hex
      dsimp only at hex
      cases hfr : findWalletIdx s.wallets tx.receiver
      case some j =>
        rw [hfr] at hex
        dsimp only at hex
        exact Or.inl (execCore_err now s i j tx
          (findWalletIdx_lt s.wallets tx.sender i hfs)
          (findWalletIdx_lt s.wallets tx.receiver j hfr) e s₂ hex he)
      case none =>
        rw [hfr] at hex
        dsimp only at hex
        cases hc1 : (pc_state_create_wallet s tx.receiver 0).1
        case PC_OK =>
          have hc : pc_state_create_wallet s tx.receiver 0 =
              (.PC_OK, (pc_state_create_wallet s tx.receiver 0).2) := by
            rw [← hc1]
          rw [hc] at hex
          dsimp only at hex
          obtain ⟨hws, hts, -, -, -, -⟩ :=
            create_wallet_ok s tx.receiver 0 _ hc
          have hfind1 :
              findWalletIdx (pc_state_create_wallet s tx.receiver 0).2.wallets
                tx.receiver = some s.wallets.length := by
            rw [hws, findWalletIdx_append_none s.wallets tx.receiver _ hfr]
            simp
          rw [hfind1] at hex
          dsimp only at hex
          have hlen : (pc_state_create_wallet s tx.receiver 0).2.wallets.length
              = s.wallets.length + 1 := by
            rw [hws]; simp
          have hi := findWalletIdx_lt s.wallets tx.sender i hfs
          have hs2 := execCore_err now (pc_state_create_wallet s tx.receiver 0).2
            i s.wallets.length tx (by omega) (by omega) e s₂ hex he
          rw [hc] at hs2 ⊢
          exact Or.inr (by rw [hs2])
        all_goals
          rw [create_wallet_eq_err s tx.receiver 0 _ hc1 (by decide)] at hex
        all_goals injection hex with hA hB
        all_goals exact Or.inl hB.symm
  all_goals
    rw [hv] at hex
  all_goals injection hex with hA hB
  all_goals exact Or.inl hB.symm

def B_acc : CryptoBackend := ⟨fun _ => true, fun _ => true, fun _ _ => true⟩

def sig_one : List Nat := List.replicate 64 1

def g100 : PCState := (pc_state_genesis 0 (pc_state_init 0) 0 100).2

/-- C3 counterexample: starting from genesis(founder 0, supply 100), a
transaction to the fresh key 1 with a wrong nonce returns an error, yet the
state has changed: the zero-balance recipient wallet was created before the
nonce check, so num_wallets and the wallet set differ. -/
theorem c3_counterexample :
    (pc_state_execute_tx B_acc 7 g100 ⟨0, 1, 5, 1, 0, sig_one⟩).1 ≠
      PCError.PC_OK ∧
    (pc_state_execute_tx B_acc 7 g100 ⟨0, 1, 5, 1, 0, sig_one⟩).2 ≠ g100 ∧
    (pc_state_execute_tx B_acc 7 g100 ⟨0, 1, 5, 1, 0, sig_one⟩).2.wallets.length
      ≠ g100.wallets.length := by
  refine ⟨by with_unfolding_all decide, by with_unfolding_all decide,
    by with_unfolding_all decide⟩

/-- C3 (amended): whenever pc_state_execute_tx returns an error, the
balances and nonces of all pre-existing wallets, total_supply, state_hash,
prev_hash, timestamp and version are unchanged, but the wallet set is either
unchanged or extended by exactly one zero-balance, zero-nonce wallet for the
transaction's receiver (created before the nonce/funds/amount checks). -/
theorem c3_error_rollback (B : CryptoBackend) (now : Nat) (s : PCState)
    (tx : PCTransaction) (e : PCError) (s₂ : PCState)
    (hex : pc_state_execute_tx B now s tx = (e, s₂)) (he : e ≠ .PC_OK) :
    s₂.total_supply = s.total_supply ∧ s₂.state_hash = s.state_hash ∧
    s₂.prev_hash = s.prev_hash ∧ s₂.timestamp = s.timestamp ∧
    s₂.version = s.version ∧
    (s₂.wallets = s.wallets ∨
      s₂.wallets = s.wallets ++ [⟨tx.receiver, 0, 0⟩]) := by
  rcases exec_tx_err_state B now s tx e s₂ hex he with h | h
  · subst h
    exact ⟨rfl, rfl, rfl, rfl, rfl, Or.inl rfl⟩
  · obtain ⟨hws, hts, hv1, ht1, hsh, hph⟩ :=
      create_wallet_ok s tx.receiver 0 s₂ h
    refine ⟨?_, hsh, hph, ht1, hv1, Or.inr hws⟩
    rw [hts]; norm_num

/-- Witness for the C3 amendment at the counterexample input. -/
theorem c3_error_rollback_witness :
    (pc_state_execute_tx B_acc 7 g100 ⟨0, 1, 5, 1, 0, sig_one⟩).2.total_supply
        = g100.total_supply ∧
    (pc_state_execute_tx B_acc 7 g100 ⟨0, 1, 5, 1, 0, sig_one⟩).2.state_hash
        = g100.state_hash ∧
    (pc_state_execute_tx B_acc 7 g100 ⟨0, 1, 5, 1, 0, sig_one⟩).2.prev_hash
        = g100.prev_hash ∧
    (pc_state_execute_tx B_acc 7 g100 ⟨0, 1, 5, 1, 0, sig_one⟩).2.timestamp
        = g100.timestamp ∧
    (pc_state_execute_tx B_acc 7 g100 ⟨0, 1, 5, 1, 0, sig_one⟩).2.version
        = g100.version ∧
    ((pc_state_execute_tx B_acc 7 g100 ⟨0, 1, 5, 1, 0, sig_one⟩).2.wallets
        = g100.wallets ∨
      (pc_state_execute_tx B_acc 7 g100 ⟨0, 1, 5, 1, 0, sig_one⟩).2.wallets
        = g100.wallets ++ [⟨1, 0, 0⟩]) :=
  c3_error_rollback B_acc 7 g100 ⟨0, 1, 5, 1, 0, sig_one⟩
    PCError.PC_ERR_INVALID_SIGNATURE
    (pc_state_execute_tx B_acc 7 g100 ⟨0, 1, 5, 1, 0, sig_one⟩).2
    (by with_unfolding_all decide) (by decide)

/-! ### C7: the hash chain, and C8: self-transfers -/

theorem execCore_ok_prev_hash (now : Nat) (s : PCState) (i j : Nat)
    (tx : PCTransaction) (s₂ : PCState)
    (hex : execCore now s i j tx = (.PC_OK, s₂)) :
    s₂.prev_hash = s.state_hash := by
  rw [execCore_ok_shape now s i j tx s₂ hex]
  simp

/-- C7: whenever pc_state_execute_tx returns PC_OK, the resulting state's
prev_hash equals the state_hash the input state had immediately before the
call (the auto-creation step never touches either hash field). -/
theorem c7_hash_chain (B : CryptoBackend) (now : Nat) (s : PCState)
    (tx : PCTransaction) (s₂ : PCState)
    (hex : pc_state_execute_tx B now s tx = (.PC_OK, s₂)) :
    s₂.prev_hash = s.state_hash := by
  unfold pc_state_execute_tx at hex
  cases hv : pc_transaction_verify B tx
  case PC_OK =>
    rw [hv] at hex
    dsimp only at hex
    cases hfs : findWalletIdx s.wallets tx.sender
    case none =>
      rw [hfs] at hex
      injection hex with hA hB
      exact PCError.noConfusion hA
    case some i =>
      rw [hfs] at hex
      dsimp only at hex
      cases hfr : findWalletIdx s.wallets tx.receiver
      case some j =>
        rw [hfr] at hex
        dsimp only at hex
        exact execCore_ok_prev_hash now s i j tx s₂ hex
      case none =>
        rw [hfr] at hex
        dsimp only at hex
        cases hc1 : (pc_state_create_wallet s tx.receiver 0).1
        case PC_OK =>
          have hc : pc_state_create_wallet s tx.receiver 0 =
              (.PC_OK, (pc_state_create_wallet s tx.receiver 0).2) := by
            rw [← hc1]
          rw [hc] at hex
          dsimp only at hex
          obtain ⟨hws, -, -, -, hsh, -⟩ :=
            create_wallet_ok s tx.receiver 0 _ hc
          have hfind1 :
              findWalletIdx (pc_state_create_wallet s tx.receiver 0).2.wallets
                tx.receiver = some s.wallets.length := by
            rw [hws, findWalletIdx_append_none s.wallets tx.receiver _ hfr]
            simp
          rw [hfind1] at hex
          dsimp only at hex
          have := execCore_ok_prev_hash now
            (pc_state_create_wallet s tx.receiver 0).2 i s.wallets.length tx
            s₂ hex
          rw [this, hsh]
        all_goals
          rw [create_wallet_eq_err s tx.receiver 0 _ hc1 (by decide)] at hex
        all_goals injection hex with hA hB
        all_goals exact PCError.noConfusion hA
  all_goals rw [hv] at hex
  all_goals injection hex with hA hB
  all_goals exact PCError.noConfusion hA

/-- Witness for C7: a concrete successful transfer. -/
theorem c7_hash_chain_witness :
    (pc_state_execute_tx B_acc 7 g100 ⟨0, 1, 5, 0, 0, sig_one⟩).2.prev_hash
      = g100.state_hash :=
  c7_hash_chain B_acc 7 g100 ⟨0, 1, 5, 0, 0, sig_one⟩
    (pc_state_execute_tx B_acc 7 g100 ⟨0, 1, 5, 0, 0, sig_one⟩).2
    (by with_unfolding_all decide)

theorem getW_transfer_self (ws : List PCWallet) (i : Nat) (a : ℚ)
    (hi : i < ws.length) :
    getW (transferWallets ws i i a) i =
      { getW ws i with
          energy := (getW ws i).energy - a + a
          nonce := (getW ws i).nonce + 1 } := by
  unfold transferWallets
  rw [getW_modifyW_self _ _ _ (by rw [length_modifyW, length_modifyW]; exact hi),
    getW_modifyW_self _ _ _ (by rw [length_modifyW]; exact hi),
    getW_modifyW_self _ _ _ hi]

/-- C8: a validly signed self-transfer (receiver = sender) with the correct
nonce, a positive amount and sufficient balance succeeds, leaves the
wallet's balance unchanged (debit and credit alias the same wallet), and
increments its nonce by exactly one. -/
theorem c8_self_transfer (B : CryptoBackend) (now : Nat) (s : PCState)
    (tx : PCTransaction) (i : Nat)
    (hv : pc_transaction_verify B tx = .PC_OK)
    (hself : tx.receiver = tx.sender)
    (hfs : findWalletIdx s.wallets tx.sender = some i)
    (hn : tx.nonce = (getW s.wallets i).nonce)
    (ha : 0 < tx.amount)
    (hb : tx.amount ≤ (getW s.wallets i).energy) :
    (pc_state_execute_tx B now s tx).1 = .PC_OK ∧
    (getW (pc_state_execute_tx B now s tx).2.wallets i).energy =
      (getW s.wallets i).energy ∧
    (getW (pc_state_execute_tx B now s tx).2.wallets i).nonce =
      (getW s.wallets i).nonce + 1 := by
  have hi := findWalletIdx_lt s.wallets tx.sender i hfs
  have hcore := execCore_success now s i i tx hn (not_lt.mpr hb)
    (not_le.mpr ha) hi hi
  have hfull : pc_state_execute_tx B now s tx =
      (.PC_OK, pc_state_compute_hash
        { s with
            wallets := transferWallets s.wallets i i tx.amount
            timestamp := now
            prev_hash := s.state_hash }) := by
    unfold pc_state_execute_tx
    rw [hv]
    dsimp only
    rw [hfs]
    dsimp only
    rw [hself, hfs]
    dsimp only
    exact hcore
  rw [hfull]
  refine ⟨rfl, ?_, ?_⟩
  · rw [compute_hash_wallets, getW_transfer_self s.wallets i tx.amount hi]
    simp
  · rw [compute_hash_wallets, getW_transfer_self s.wallets i tx.amount hi]

/-- Witness for C8: founder self-transfer of 5 out of 100 at nonce 0. -/
theorem c8_self_transfer_witness :
    (pc_state_execute_tx B_acc 7 g100 ⟨0, 0, 5, 0, 0, sig_one⟩).1 = .PC_OK ∧
    (getW (pc_state_execute_tx B_acc 7 g100 ⟨0, 0, 5, 0, 0, sig_one⟩).2.wallets
        0).energy = (getW g100.wallets 0).energy ∧
    (getW (pc_state_execute_tx B_acc 7 g100 ⟨0, 0, 5, 0, 0, sig_one⟩).2.wallets
        0).nonce = (getW g100.wallets 0).nonce + 1 :=
  c8_self_transfer B_acc 7 g100 ⟨0, 0, 5, 0, 0, sig_one⟩ 0
    (by with_unfolding_all decide) rfl (by with_unfolding_all decide)
    (by with_unfolding_all decide) (by norm_num) (by with_unfolding_all decide)

/-! ### C5: the all-zero signature short-circuit -/

/-- C5 counterexample: a signature whose first 16 bytes are zero but whose
17th byte is 1 is not short-circuited: the all-zero scan covers all 64
bytes, so verification proceeds into the backend, which may accept. -/
theorem c5_counterexample :
    ((List.replicate 16 0 ++ 1 :: List.replicate 47 0).take 16).all
        (fun b => b = 0) = true ∧
    pc_transaction_verify B_acc
        ⟨0, 1, 5, 0, 0, List.replicate 16 0 ++ 1 :: List.replicate 47 0⟩ =
      .PC_OK := by
  refine ⟨by decide, by decide⟩

/-- C5 (amended): the cheap short-circuit in pc_transaction_verify fires
exactly when the whole 64-byte signature is zero: an all-zero signature is
rejected with an invalid-signature error regardless of the crypto backend. -/
theorem c5_zero_sig_reject (B : CryptoBackend) (tx : PCTransaction)
    (h : pc_sig_all_zero tx.signature = true) :
    pc_transaction_verify B tx = .PC_ERR_INVALID_SIGNATURE := by
  unfold pc_transaction_verify
  rw [if_pos h]

/-- Witness for C5 (amended): the 64-byte all-zero signature. -/
theorem c5_zero_sig_reject_witness :
    pc_transaction_verify B_acc ⟨0, 1, 5, 0, 0, List.replicate 64 0⟩ =
      .PC_ERR_INVALID_SIGNATURE :=
  c5_zero_sig_reject B_acc ⟨0, 1, 5, 0, 0, List.replicate 64 0⟩ (by decide)

/-! ### Proof-of-Conservation consensus (poc_consensus.c) -/

/-- POC_MAX_VALIDATORS from poc_consensus.h. -/
def POC_MAX_VALIDATORS : Nat := 100

/-- POC_QUORUM_PERCENT from poc_consensus.h. -/
def POC_QUORUM_PERCENT : Nat := 67

/-- Validator record (POCValidator). -/
structure POCValidator where
  pubkey : Nat
  name : String
  joined_at : Nat
  last_seen : Nat
  proposals : Nat
  validations : Nat
  reputation : ℚ
  active : Bool
  deriving DecidableEq, Repr

/-- Vote kinds (POCVoteType). -/
inductive POCVoteType
  | approve
  | reject
  | abstain
  deriving DecidableEq, Repr

/-- State transition proposal (POCProposal).  `proposer_sig` is the
64-byte Ed25519 signature, modelled opaquely. -/
structure POCProposal where
  sequence_num : Nat
  round : Nat
  prev_state_hash : PCHash
  new_state_hash : PCHash
  total_supply : ℚ
  delta_sum : ℚ
  timestamp : Nat
  proposer_pubkey : Nat
  proposer_sig : Nat
  num_transactions : Nat
  deriving DecidableEq, Repr

/-- Idealized SHA-256 of a proposal: poc_hash_proposal hashes every field
except the proposer signature; we model the digest as the tuple of exactly
those fields (an injective hash). -/
structure POCProposalHash where
  sequence_num : Nat
  round : Nat
  prev_state_hash : PCHash
  new_state_hash : PCHash
  total_supply : ℚ
  delta_sum : ℚ
  timestamp : Nat
  proposer_pubkey : Nat
  num_transactions : Nat
  deriving DecidableEq, Repr

/-- poc_hash_proposal from poc_consensus.c. -/
def poc_hash_proposal (p : POCProposal) : POCProposalHash :=
  ⟨p.sequence_num, p.round, p.prev_state_hash, p.new_state_hash,
    p.total_supply, p.delta_sum, p.timestamp, p.proposer_pubkey,
    p.num_transactions⟩

/-- Vote record (POCVote).  `proposal_hash` is whatever 32-byte value the
voter put there; `signature` is the Ed25519 signature over it. -/
structure POCVote where
  sequence_num : Nat
  round : Nat
  proposal_hash : POCProposalHash
  validator_pubkey : Nat
  signature : Nat
  vote : POCVoteType
  timestamp : Nat
  reason : String
  deriving DecidableEq, Repr

/-- The fields of POCConsensus the consensus operations read and write:
the validator registry, the chain position, the current proposal and the
vote tally.  (Leader index, timers, cross-shard locks and the local keypair
are not consulted by validate/receive/check_quorum.) -/
structure POCConsensus where
  validators : List POCValidator
  current_height : Nat
  current_round : Nat
  has_proposal : Bool
  current_proposal : POCProposal
  votes : List POCVote
  deriving DecidableEq, Repr

/-- crypto_sign_verify_detached left opaque: does this signature verify for
this 32-byte message under this public key. -/
def SigVerify : Type := Nat → POCProposalHash → Nat → Bool

/-- poc_is_validator: active validator with matching key. -/
def poc_is_validator (c : POCConsensus) (pk : Nat) : Bool :=
  c.validators.any fun v => v.active && (v.pubkey == pk)

/-- poc_active_validator_count. -/
def poc_active_validator_count (c : POCConsensus) : Nat :=
  (c.validators.filter fun v => v.active).length

/-- The approve tally of poc_check_quorum's counting loop. -/
def poc_approvals (c : POCConsensus) : Nat :=
  (c.votes.filter fun w => w.vote == POCVoteType.approve).length

/-- The reject tally of poc_check_quorum's counting loop. -/
def poc_rejects (c : POCConsensus) : Nat :=
  (c.votes.filter fun w => w.vote == POCVoteType.reject).length

/-- The `required` count computed by poc_check_quorum:
(active * POC_QUORUM_PERCENT) / 100 in integer arithmetic, floored, and
bumped to 1 when it comes out 0. -/
def poc_required (c : POCConsensus) : Nat :=
  if poc_active_validator_count c * POC_QUORUM_PERCENT / 100 = 0 then 1
  else poc_active_validator_count c * POC_QUORUM_PERCENT / 100

/-- poc_check_quorum from poc_consensus.c: 1 approved, -1 rejected,
0 still waiting. -/
def poc_check_quorum (c : POCConsensus) : Int :=
  if c.has_proposal ≠ true then 0
  else if poc_active_validator_count c < 3 then 0
  else if poc_approvals c ≥ poc_required c then 1
  else if poc_rejects c > poc_active_validator_count c - poc_required c then -1
  else 0

/-- poc_validate_proposal from poc_consensus.c: the six checks in source
order. -/
def poc_validate_proposal (sv : SigVerify) (c : POCConsensus)
    (p : POCProposal) (st : PCState) : PCError :=
  if poc_is_validator c p.proposer_pubkey ≠ true then .PC_ERR_INVALID_SIGNATURE
  else if p.sequence_num ≠ c.current_height + 1 then .PC_ERR_INVALID_SIGNATURE
  else if p.prev_state_hash ≠ st.state_hash then .PC_ERR_INVALID_SIGNATURE
  else if fabs (p.total_supply - st.total_supply) > eps12 then
    .PC_ERR_CONSERVATION_VIOLATED
  else if fabs p.delta_sum > eps12 then .PC_ERR_CONSERVATION_VIOLATED
  else if sv p.proposer_sig (poc_hash_proposal p) p.proposer_pubkey ≠ true then
    .PC_ERR_INVALID_SIGNATURE
  else .PC_OK

/-- poc_receive_vote from poc_consensus.c: validator membership, signature
over the vote's own proposal_hash, duplicate-by-voter check, then append
(silently dropped past POC_MAX_VALIDATORS votes).  Nothing compares the
vote's proposal_hash, sequence_num or round with the current proposal. -/
def poc_receive_vote (sv : SigVerify) (c : POCConsensus) (v : POCVote) :
    PCError × POCConsensus :=
  if poc_is_validator c v.validator_pubkey ≠ true then
    (.PC_ERR_INVALID_SIGNATURE, c)
  else if sv v.signature v.proposal_hash v.validator_pubkey ≠ true then
    (.PC_ERR_INVALID_SIGNATURE, c)
  else if (c.votes.any fun w => w.validator_pubkey == v.validator_pubkey) then
    (.PC_ERR_WALLET_EXISTS, c)
  else if c.votes.length < POC_MAX_VALIDATORS then
    (.PC_OK, { c with votes := c.votes ++ [v] })
  else (.PC_OK, c)

/-! ### C2: quorum at four validators -/

def v_active (pk : Nat) : POCValidator := ⟨pk, "V", 0, 0, 0, 0, 1, true⟩

def p_dummy : POCProposal := ⟨1, 0, PCHash.zero, PCHash.zero, 0, 0, 0, 0, 0, 0⟩

def approve_vote (pk : Nat) : POCVote :=
  ⟨1, 0, poc_hash_proposal p_dummy, pk, 0, .approve, 0, ""⟩

def cons4 (votes : List POCVote) : POCConsensus :=
  ⟨[v_active 0, v_active 1, v_active 2, v_active 3], 0, 0, true, p_dummy,
    votes⟩

/-- C2 counterexample: with 4 active validators and a current proposal,
two approve votes already reach quorum — poc_check_quorum returns
approved (1), not pending (0), because required = (4 × 67) / 100 = 2 in
integer arithmetic, not ⌈4 × 2/3⌉ = 3. -/
theorem c2_counterexample :
    poc_active_validator_count (cons4 [approve_vote 0, approve_vote 1]) = 4 ∧
    poc_approvals (cons4 [approve_vote 0, approve_vote 1]) = 2 ∧
    poc_check_quorum (cons4 [approve_vote 0, approve_vote 1]) = 1 := by
  refine ⟨by decide, by decide, by decide⟩

/-- C2 (amended): with exactly 4 active validators and a current proposal
the quorum threshold is (4 × 67) / 100 = 2 approvals (floored integer
percentage): after a single approve vote (and no rejects) check_quorum
returns pending (0), and the second approve vote makes it return
approved (1). -/
theorem c2_quorum_at_4 (c : POCConsensus) (hp : c.has_proposal = true)
    (ha : poc_active_validator_count c = 4) :
    (poc_approvals c = 1 → poc_rejects c = 0 → poc_check_quorum c = 0) ∧
    (poc_approvals c = 2 → poc_check_quorum c = 1) := by
  have hreq : poc_required c = 2 := by
    unfold poc_required
    rw [ha]
    decide
  constructor
  · intro h1 h0
    unfold poc_check_quorum
    rw [hp, ha, hreq, h1, h0]
    norm_num
  · intro h2
    unfold poc_check_quorum
    rw [hp, ha, hreq, h2]
    norm_num

/-- Witness for C2 (amended): one approval pending, two approvals approved. -/
theorem c2_quorum_at_4_witness :
    poc_check_quorum (cons4 [approve_vote 0]) = 0 ∧
    poc_check_quorum (cons4 [approve_vote 0, approve_vote 1]) = 1 :=
  ⟨(c2_quorum_at_4 (cons4 [approve_vote 0]) rfl (by decide)).1 (by decide)
      (by decide),
    (c2_quorum_at_4 (cons4 [approve_vote 0, approve_vote 1]) rfl
      (by decide)).2 (by decide)⟩

/-! ### C6: proposal validation -/

/-- C6: poc_validate_proposal returns PC_OK exactly when the proposer is an
active registered validator, the sequence number is current_height + 1, the
previous state hash matches, the supply difference and the delta sum are
within 1e-12, and the proposer's signature over the proposal hash verifies;
any failing check yields an error. -/
theorem c6_validate_proposal_iff (sv : SigVerify) (c : POCConsensus)
    (p : POCProposal) (st : PCState) :
    poc_validate_proposal sv c p st = .PC_OK ↔
      (poc_is_validator c p.proposer_pubkey = true ∧
       p.sequence_num = c.current_height + 1 ∧
       p.prev_state_hash = st.state_hash ∧
       fabs (p.total_supply - st.total_supply) ≤ eps12 ∧
       fabs p.delta_sum ≤ eps12 ∧
       sv p.proposer_sig (poc_hash_proposal p) p.proposer_pubkey = true) := by
  unfold poc_validate_proposal
  split_ifs with h1 h2 h3 h4 h5 h6
  · simp [h1]
  · simp [h2]
  · simp [h3]
  · simp [not_le.mpr h4]
  · simp [not_le.mpr h5]
  · simp [h6]
  · push_neg at h1 h2 h3 h6
    simp [h1, h2, h3, not_lt.mp h4, not_lt.mp h5, h6]

def sv_true : SigVerify := fun _ _ _ => true

def st0 : PCState := pc_state_init 0

def cons_v5 : POCConsensus := ⟨[v_active 5], 0, 0, false, p_dummy, []⟩

def p_v5 : POCProposal := ⟨1, 0, PCHash.zero, PCHash.zero, 0, 0, 0, 5, 0, 0⟩

/-- Witness for C6: a fully valid proposal is accepted. -/
theorem c6_validate_proposal_witness :
    poc_validate_proposal sv_true cons_v5 p_v5 st0 = .PC_OK :=
  (c6_validate_proposal_iff sv_true cons_v5 p_v5 st0).mpr
    ⟨by decide, by decide, by with_unfolding_all decide,
      by with_unfolding_all decide, by with_unfolding_all decide, by decide⟩

/-! ### C10: votes for a different proposal still count -/

def foreign_hash : POCProposalHash :=
  ⟨99, 7, PCHash.zero, PCHash.zero, 0, 0, 0, 0, 0⟩

def foreign_vote : POCVote := ⟨99, 7, foreign_hash, 2, 0, .approve, 0, ""⟩

/-- C10: with a current proposal, poc_receive_vote accepts any vote from a
registered active validator whose signature verifies over the vote's own
proposal_hash — even when that hash (or the vote's sequence_num or round)
differs from the current proposal's — and the vote enters the tally that
poc_check_quorum counts for the current proposal. -/
theorem c10_receive_vote_foreign (sv : SigVerify) (c : POCConsensus)
    (v : POCVote) (hp : c.has_proposal = true)
    (hval : poc_is_validator c v.validator_pubkey = true)
    (hsig : sv v.signature v.proposal_hash v.validator_pubkey = true)
    (hdup : (c.votes.any fun w => w.validator_pubkey == v.validator_pubkey)
      = false)
    (hlen : c.votes.length < POC_MAX_VALIDATORS)
    (hdiff : v.proposal_hash ≠ poc_hash_proposal c.current_proposal ∨
      v.sequence_num ≠ c.current_proposal.sequence_num ∨
      v.round ≠ c.current_proposal.round) :
    (poc_receive_vote sv c v).1 = .PC_OK ∧
    (poc_receive_vote sv c v).2.votes = c.votes ++ [v] ∧
    poc_approvals (poc_receive_vote sv c v).2 =
      poc_approvals c + (if v.vote = .approve then 1 else 0) ∧
    poc_rejects (poc_receive_vote sv c v).2 =
      poc_rejects c + (if v.vote = .reject then 1 else 0) := by
  have hrecv : poc_receive_vote sv c v = (.PC_OK, { c with votes := c.votes ++ [v] }) := by
    unfold poc_receive_vote
    rw [if_neg (by rw [hval]; exact fun hcon => hcon rfl),
      if_neg (by rw [hsig]; exact fun hcon => hcon rfl),
      if_neg (by rw [hdup]; exact Bool.false_ne_true),
      if_pos hlen]
  rw [hrecv]
  refine ⟨rfl, rfl, ?_, ?_⟩ <;>
    simp [poc_approvals, poc_rejects, List.filter_append] <;>
    cases hvote : v.vote <;> simp [hvote]

/-- Witness for C10: an approve vote carrying a foreign proposal hash,
sequence and round is accepted into the tally. -/
theorem c10_receive_vote_foreign_witness :
    (poc_receive_vote sv_true (cons4 []) foreign_vote).1 = .PC_OK ∧
    (poc_receive_vote sv_true (cons4 []) foreign_vote).2.votes =
      (cons4 []).votes ++ [foreign_vote] ∧
    poc_approvals (poc_receive_vote sv_true (cons4 []) foreign_vote).2 =
      poc_approvals (cons4 []) +
        (if foreign_vote.vote = .approve then 1 else 0) ∧
    poc_rejects (poc_receive_vote sv_true (cons4 []) foreign_vote).2 =
      poc_rejects (cons4 []) +
        (if foreign_vote.vote = .reject then 1 else 0) :=
  c10_receive_vote_foreign sv_true (cons4 []) foreign_vote rfl (by decide)
    rfl (by decide) (by decide) (Or.inl (by decide))

/-! ### Delta synchronization (delta.c) -/

/-- Single wallet change (PCWalletDelta). -/
structure PCWalletDelta where
  pubkey : Nat
  old_balance : ℚ
  new_balance : ℚ
  old_nonce : Nat
  new_nonce : Nat
  deriving DecidableEq, Repr

/-- State delta (PCStateDelta); num_changes is changes.length. -/
structure PCStateDelta where
  prev_hash : PCHash
  new_hash : PCHash
  prev_timestamp : Nat
  new_timestamp : Nat
  total_supply : ℚ
  changes : List PCWalletDelta
  deriving DecidableEq, Repr

/-- The delta_effect loop of verify_delta_conservation: per change, the
difference to the current balance, or the full new balance for a wallet not
in the current state. -/
def delta_effect (st : PCState) (chs : List PCWalletDelta) : ℚ :=
  (chs.map fun wd =>
    match findWalletIdx st.wallets wd.pubkey with
    | some i => wd.new_balance - (getW st.wallets i).energy
    | none => wd.new_balance).sum

/-- verify_delta_conservation from delta.c. -/
def verify_delta_conservation (st : PCState) (d : PCStateDelta) : PCError :=
  if fabs (sumE st.wallets + delta_effect st d.changes - d.total_supply)
      > eps9 then
    .PC_ERR_CONSERVATION_VIOLATED
  else if d.changes.any fun wd => decide (wd.new_balance < 0) then
    .PC_ERR_INVALID_AMOUNT
  else .PC_OK

/-- The application loop of pc_delta_apply: set balance and nonce per
change, creating missing wallets; `some e` aborts the loop mid-way exactly
where the C `return` sits, with the partial state. -/
def pc_delta_apply_changes (st : PCState) :
    List PCWalletDelta → Option PCError × PCState
  | [] => (none, st)
  | wd :: rest =>
      match findWalletIdx st.wallets wd.pubkey with
      | some i =>
          pc_delta_apply_changes
            { st with
                wallets := modifyW st.wallets i fun w =>
                  { w with energy := wd.new_balance, nonce := wd.new_nonce } }
            rest
      | none =>
          match pc_state_create_wallet st wd.pubkey 0 with
          | (.PC_OK, st1) | (.PC_ERR_WALLET_EXISTS, st1) =>
              match findWalletIdx st1.wallets wd.pubkey with
              | some i =>
                  pc_delta_apply_changes
                    { st1 with
                        wallets := modifyW st1.wallets i fun w =>
                          { w with
                              energy := wd.new_balance
                              nonce := wd.new_nonce } }
                    rest
              | none => (some PCError.PC_ERR_IO, st1)
          | (e, st1) => (some e, st1)

/-- pc_delta_apply from delta.c: three pre-apply security checks, the
mutation loop, then the recomputed-hash comparison (check 4) and the final
conservation re-check (check 5), both of which run after the state was
already mutated. -/
def pc_delta_apply (st : PCState) (d : PCStateDelta) : PCError × PCState :=
  if st.state_hash ≠ d.prev_hash then (.PC_ERR_INVALID_SIGNATURE, st)
  else
    match verify_delta_conservation st d with
    | .PC_OK =>
        if st.total_supply > 0 ∧ fabs (d.total_supply - st.total_supply)
            > eps9 then
          (.PC_ERR_CONSERVATION_VIOLATED, st)
        else
          match pc_delta_apply_changes st d.changes with
          | (some e, st1) => (e, st1)
          | (none, st1) =>
              let st2 := pc_state_compute_hash
                { st1 with
                    timestamp := d.new_timestamp
                    prev_hash := d.prev_hash }
              if st2.state_hash ≠ d.new_hash then
                (.PC_ERR_INVALID_SIGNATURE, st2)
              else
                match pc_state_verify_conservation st2 with
                | .PC_OK => (.PC_OK, st2)
                | _ => (.PC_ERR_CONSERVATION_VIOLATED, st2)
    | e => (e, st)

def st_c4 : PCState :=
  pc_state_compute_hash ⟨1, 0, 100, PCHash.zero, PCHash.zero, [⟨0, 100, 0⟩], 100⟩

def d_c4 : PCStateDelta := ⟨st_c4.state_hash, PCHash.zero, 0, 5, 100, []⟩

/-- C4 counterexample: a delta that chains correctly and passes all
pre-apply conservation checks but carries a wrong new_hash is rejected by
security check 4 — after the state has already been mutated (timestamp,
prev_hash and state_hash updated), and no rollback happens: the returned
state differs from the input state. -/
theorem c4_counterexample :
    (pc_delta_apply st_c4 d_c4).1 ≠ .PC_OK ∧
    (pc_delta_apply st_c4 d_c4).2 ≠ st_c4 ∧
    (pc_delta_apply st_c4 d_c4).2.prev_hash ≠ st_c4.prev_hash := by
  refine ⟨by with_unfolding_all decide, by with_unfolding_all decide,
    by with_unfolding_all decide⟩

/-- C4 (amended): failures of the three pre-apply checks (hash-chain
mismatch, delta conservation pre-check, total-supply change) reject the
delta and leave the caller's state untouched; but an error from the
post-apply checks — the recomputed state hash not matching new_hash, or the
final conservation re-check — is returned only after the mutations were
applied, and the state is not restored. -/
theorem c4_early_reject_untouched (st : PCState) (d : PCStateDelta)
    (h : st.state_hash ≠ d.prev_hash ∨
      verify_delta_conservation st d ≠ .PC_OK ∨
      (st.total_supply > 0 ∧ fabs (d.total_supply - st.total_supply) > eps9)) :
    (pc_delta_apply st d).1 ≠ .PC_OK ∧ (pc_delta_apply st d).2 = st := by
  unfold pc_delta_apply
  by_cases h0 : st.state_hash ≠ d.prev_hash
  · rw [if_pos h0]
    exact ⟨fun hcon => PCError.noConfusion hcon, rfl⟩
  · rw [if_neg h0]
    cases hv : verify_delta_conservation st d
    · have h3 : st.total_supply > 0 ∧
          fabs (d.total_supply - st.total_supply) > eps9 := by
        rcases h with h | h | h
        · exact absurd h h0
        · exact absurd hv h
        · exact h
      rw [if_pos h3]
      exact ⟨fun hcon => PCError.noConfusion hcon, rfl⟩
    all_goals exact ⟨fun hcon => PCError.noConfusion hcon, rfl⟩

/-- Witness for C4 (amended): a delta that does not chain from the current
state is rejected with the state untouched. -/
theorem c4_early_reject_untouched_witness :
    (pc_delta_apply st0 ⟨PCHash.node 0 0 0 0 PCHash.zero [], PCHash.zero,
        0, 0, 0, []⟩).1 ≠ .PC_OK ∧
    (pc_delta_apply st0 ⟨PCHash.node 0 0 0 0 PCHash.zero [], PCHash.zero,
        0, 0, 0, []⟩).2 = st0 :=
  c4_early_reject_untouched st0
    ⟨PCHash.node 0 0 0 0 PCHash.zero [], PCHash.zero, 0, 0, 0, []⟩
    (Or.inl (by decide))

/-! ### Write-ahead log recovery (wal.c) -/

/-- Idealized SHA-256 payload checksum stored in a WAL entry header: an
injective constructor per payload kind (raw covers arbitrary corrupted
values). -/
inductive WALChecksum
  | ofGenesis (pubkey : Nat) (supply : ℚ)
  | ofTx (tx : PCTransaction)
  | ofTime (t : Nat)
  | raw (n : Nat)
  deriving DecidableEq, Repr

/-- The payload of a WAL entry, by entry type. -/
inductive WALPayload
  | genesis (pubkey : Nat) (supply : ℚ)
  | tx (t : PCTransaction)
  | checkpoint (hash : PCHash)
  | syncMarker (t : Nat)
  | unknown (size : Nat)
  deriving DecidableEq, Repr

/-- A parsed WAL entry: header fields plus payload. -/
structure WALEntry where
  timestamp : Nat
  sequence : Nat
  payload : WALPayload
  checksum : WALChecksum
  deriving DecidableEq, Repr

/-- The loop state of pc_wal_recover: the state being rebuilt, the last
seen checkpoint sequence, and the tx/skip/corrupt counters. -/
structure WALReplayAcc where
  state : PCState
  checkpoint_seq : Nat
  tx_count : Nat
  skip_count : Nat
  corrupt_count : Nat
  deriving DecidableEq, Repr

/-- One iteration of pc_wal_recover's replay loop: verify the checksum of
genesis and transaction payloads (corrupt entries only bump the corrupt
counter), replay genesis, skip transactions at or before the checkpoint,
execute the rest (failures are tolerated), and record checkpoint
sequences. -/
def wal_replay_step (B : CryptoBackend) (now : Nat) (acc : WALReplayAcc)
    (e : WALEntry) : WALReplayAcc :=
  match e.payload with
  | .genesis pk supply =>
      if e.checksum ≠ WALChecksum.ofGenesis pk supply then
        { acc with corrupt_count := acc.corrupt_count + 1 }
      else
        { acc with state := (pc_state_genesis now acc.state pk supply).2 }
  | .tx t =>
      if e.checksum ≠ WALChecksum.ofTx t then
        { acc with corrupt_count := acc.corrupt_count + 1 }
      else if e.sequence ≤ acc.checkpoint_seq then
        { acc with skip_count := acc.skip_count + 1 }
      else
        match pc_state_execute_tx B now acc.state t with
        | (.PC_OK, s1) =>
            { acc with state := s1, tx_count := acc.tx_count + 1 }
        | (_, s1) =>
            { acc with state := s1, skip_count := acc.skip_count + 1 }
  | .checkpoint _ => { acc with checkpoint_seq := e.sequence }
  | .syncMarker _ => acc
  | .unknown _ => acc

/-- pc_wal_recover from wal.c over a parsed entry list: `st0` is the state
after the optional checkpoint load, and the final conservation check decides
the return code. -/
def pc_wal_recover (B : CryptoBackend) (now : Nat) (st0 : PCState)
    (entries : List WALEntry) : PCError × PCState :=
  match pc_state_verify_conservation
      ((entries.foldl (wal_replay_step B now) ⟨st0, 0, 0, 0, 0⟩).state) with
  | .PC_OK =>
      (.PC_OK, (entries.foldl (wal_replay_step B now) ⟨st0, 0, 0, 0, 0⟩).state)
  | _ =>
      (.PC_ERR_CONSERVATION_VIOLATED,
        (entries.foldl (wal_replay_step B now) ⟨st0, 0, 0, 0, 0⟩).state)

/-- An entry whose payload checksum verification fails (only genesis and
transaction payloads are checksummed by the replay loop). -/
def wal_entry_corrupt (e : WALEntry) : Bool :=
  match e.payload with
  | .genesis pk supply => e.checksum != WALChecksum.ofGenesis pk supply
  | .tx t => e.checksum != WALChecksum.ofTx t
  | _ => false

theorem wal_step_corrupt (B : CryptoBackend) (now : Nat) (acc : WALReplayAcc)
    (e : WALEntry) (h : wal_entry_corrupt e = true) :
    wal_replay_step B now acc e =
      { acc with corrupt_count := acc.corrupt_count + 1 } := by
  unfold wal_entry_corrupt at h
  unfold wal_replay_step
  cases hp : e.payload <;> rw [hp] at h <;> dsimp only at h ⊢
  · rw [if_pos (by simpa using h)]
  · rw [if_pos (by simpa using h)]
  · simp at h
  · simp at h
  · simp at h

/-- `b` is `a` with `k` extra corrupt entries counted and everything else
equal. -/
def accSimilar (k : Nat) (a b : WALReplayAcc) : Prop :=
  b.state = a.state ∧ b.checkpoint_seq = a.checkpoint_seq ∧
  b.tx_count = a.tx_count ∧ b.skip_count = a.skip_count ∧
  b.corrupt_count = a.corrupt_count + k

theorem wal_step_similar (B : CryptoBackend) (now : Nat) (k : Nat)
    (a b : WALReplayAcc) (e : WALEntry) (h : accSimilar k a b) :
    accSimilar k (wal_replay_step B now a e) (wal_replay_step B now b e) := by
  obtain ⟨h1, h2, h3, h4, h5⟩ := h
  unfold wal_replay_step
  cases hp : e.payload with
  | genesis pk supply =>
      dsimp only
      split_ifs
      · exact ⟨h1, h2, h3, h4, by dsimp only; omega⟩
      · exact ⟨by rw [h1], h2, h3, h4, h5⟩
  | tx t =>
      dsimp only
      rw [h1, h2]
      split_ifs
      · exact ⟨rfl, rfl, h3, h4, by dsimp only; omega⟩
      · exact ⟨rfl, rfl, h3, by rw [h4], by dsimp only; omega⟩
      · cases hex : pc_state_execute_tx B now a.state t with
        | mk e1 s1 =>
            cases e1 <;>
              exact ⟨rfl, rfl, by dsimp only; omega, by dsimp only; omega,
                by dsimp only; omega⟩
  | checkpoint hsh => exact ⟨h1, rfl, h3, h4, h5⟩
  | syncMarker t => exact ⟨h1, h2, h3, h4, h5⟩
  | unknown n => exact ⟨h1, h2, h3, h4, h5⟩

theorem wal_foldl_similar (B : CryptoBackend) (now : Nat) (k : Nat)
    (l : List WALEntry) :
    ∀ a b : WALReplayAcc, accSimilar k a b →
      accSimilar k (l.foldl (wal_replay_step B now) a)
        (l.foldl (wal_replay_step B now) b) := by
  induction l with
  | nil => intro a b h; exact h
  | cons e rest ih =>
      intro a b h
      exact ih _ _ (wal_step_similar B now k a b e h)

/-- C9: a WAL entry (genesis or transaction) whose payload checksum fails
verification is skipped without being applied — the replayed state is the
same as if the entry were absent — recovery continues with the subsequent
entries, only the corrupt counter grows, and pc_wal_recover returns exactly
what it returns on the log without the corrupt entry (in particular, a
corrupt entry alone never makes it return an error). -/
theorem c9_corrupt_entry_skipped (B : CryptoBackend) (now : Nat)
    (st0 : PCState) (l₁ l₂ : List WALEntry) (e : WALEntry)
    (h : wal_entry_corrupt e = true) :
    ((l₁ ++ e :: l₂).foldl (wal_replay_step B now) ⟨st0, 0, 0, 0, 0⟩).state =
      ((l₁ ++ l₂).foldl (wal_replay_step B now) ⟨st0, 0, 0, 0, 0⟩).state ∧
    ((l₁ ++ e :: l₂).foldl (wal_replay_step B now)
        ⟨st0, 0, 0, 0, 0⟩).corrupt_count =
      ((l₁ ++ l₂).foldl (wal_replay_step B now)
        ⟨st0, 0, 0, 0, 0⟩).corrupt_count + 1 ∧
    pc_wal_recover B now st0 (l₁ ++ e :: l₂) =
      pc_wal_recover B now st0 (l₁ ++ l₂) := by
  have hsim : accSimilar 1 (l₁.foldl (wal_replay_step B now) ⟨st0, 0, 0, 0, 0⟩)
      (wal_replay_step B now
        (l₁.foldl (wal_replay_step B now) ⟨st0, 0, 0, 0, 0⟩) e) := by
    rw [wal_step_corrupt B now _ e h]
    exact ⟨rfl, rfl, rfl, rfl, rfl⟩
  have hmain := wal_foldl_similar B now 1 l₂ _ _ hsim
  obtain ⟨hs, -, -, -, hcc⟩ := hmain
  have he1 : (l₁ ++ e :: l₂).foldl (wal_replay_step B now) ⟨st0, 0, 0, 0, 0⟩ =
      l₂.foldl (wal_replay_step B now)
        (wal_replay_step B now
          (l₁.foldl (wal_replay_step B now) ⟨st0, 0, 0, 0, 0⟩) e) := by
    rw [List.foldl_append]
    rfl
  have he2 : (l₁ ++ l₂).foldl (wal_replay_step B now) ⟨st0, 0, 0, 0, 0⟩ =
      l₂.foldl (wal_replay_step B now)
        (l₁.foldl (wal_replay_step B now) ⟨st0, 0, 0, 0, 0⟩) := by
    rw [List.foldl_append]
  refine ⟨by rw [he1, he2]; exact hs, by rw [he1, he2]; omega, ?_⟩
  unfold pc_wal_recover
  rw [he1, he2, hs]

def e_bad : WALEntry := ⟨0, 0, WALPayload.genesis 1 50, WALChecksum.raw 0⟩

/-- Witness for C9: a genesis entry with a wrong checksum, alone in the
log, leaves recovery identical to recovery over the empty log. -/
theorem c9_corrupt_entry_skipped_witness :
    (([] ++ e_bad :: []).foldl (wal_replay_step B_acc 0)
        ⟨st0, 0, 0, 0, 0⟩).state =
      (([] ++ []).foldl (wal_replay_step B_acc 0) ⟨st0, 0, 0, 0, 0⟩).state ∧
    (([] ++ e_bad :: []).foldl (wal_replay_step B_acc 0)
        ⟨st0, 0, 0, 0, 0⟩).corrupt_count =
      (([] ++ []).foldl (wal_replay_step B_acc 0)
        ⟨st0, 0, 0, 0, 0⟩).corrupt_count + 1 ∧
    pc_wal_recover B_acc 0 st0 ([] ++ e_bad :: []) =
      pc_wal_recover B_acc 0 st0 ([] ++ []) :=
  c9_corrupt_entry_skipped B_acc 0 st0 [] [] e_bad (by decide)

end PhysicsCoin
